import Mathlib

/-!
Verification development for the real-time collaborative document session
of the pdf_chat_reg repository.

The client-side collaboration state lives in the redux slice
(collaborationSlice: interfaces Position, Comment, Cursor,
CollaborationState and its reducers) and in the CollaborationService
socket client.  Those are embedded directly from the source.  The
server-side components described by the specification (Edit Lock Manager,
Presence Tracker, Comment Thread Store) have no implementation in the
repository sources; they are modelled from the specification text and
marked as such in their doc comments.

Conventions: a JavaScript object used as a string-keyed record is
embedded as an association list with in-place update of the first
matching key and append of fresh keys (JS objects keep insertion order
and hold each key once); timestamps produced by new Date().toISOString()
are passed in as an explicit argument; TypeScript number fields that are
only stored and compared are carried as Int (coordinates) or Nat (ids,
pages).
-/

namespace PdfChatReg

/-- Position as in the redux slice: x, y coordinates and a page number. -/
structure Position where
  x : Int
  y : Int
  page : Nat
  deriving DecidableEq, Repr

/-- Lookup in a string-keyed JS object embedded as an association list. -/
def recGet? {α : Type} : List (String × α) → String → Option α
  | [], _ => none
  | (a, b) :: t, k => if a == k then some b else recGet? t k

/-- Assignment obj[k] = v on a string-keyed JS object: overwrite the first
occurrence of the key in place, otherwise append the fresh key at the end. -/
def recSet {α : Type} : List (String × α) → String → α → List (String × α)
  | [], k, v => [(k, v)]
  | (a, b) :: t, k, v => if a == k then (k, v) :: t else (a, b) :: recSet t k v

/-- Deletion of a key from a string-keyed JS object. -/
def recDel {α : Type} (m : List (String × α)) (k : String) : List (String × α) :=
  m.filter (fun p => p.1 != k)

/-- Apply f to the first list element satisfying p, embedding the JS idiom
of mutating the object returned by Array.find. -/
def updateFirst {α : Type} (p : α → Bool) (f : α → α) : List α → List α
  | [] => []
  | x :: t => if p x then f x :: t else x :: updateFirst p f t

/-- Comment as in the redux slice: id, userId, content, position,
createdAt, and a list of reply comments of the same shape. -/
inductive Comment : Type where
  | mk (id : Nat) (userId : String) (content : String) (position : Position)
      (createdAt : String) (replies : List Comment) : Comment

def Comment.id : Comment → Nat
  | .mk i _ _ _ _ _ => i

def Comment.userId : Comment → String
  | .mk _ u _ _ _ _ => u

def Comment.content : Comment → String
  | .mk _ _ c _ _ _ => c

def Comment.position : Comment → Position
  | .mk _ _ _ p _ _ => p

def Comment.createdAt : Comment → String
  | .mk _ _ _ _ t _ => t

def Comment.replies : Comment → List Comment
  | .mk _ _ _ _ _ rs => rs

/-- The JS statement comment.replies.push(reply). -/
def Comment.pushReply : Comment → Comment → Comment
  | .mk i u c p t rs, r => .mk i u c p t (rs ++ [r])

/-- Cursor as in the redux slice. -/
structure Cursor where
  userId : String
  position : Position
  lastUpdate : String
  deriving DecidableEq, Repr

/-- The documentLock field of the redux collaboration state. -/
structure DocumentLock where
  isLocked : Bool
  lockedBy : Option String
  lockedAt : Option String
  deriving DecidableEq, Repr

/-- CollaborationState as in the redux slice. -/
structure CollaborationState where
  activeDocumentId : Option String
  cursors : List (String × Cursor)
  comments : List (String × List Comment)
  documentLock : DocumentLock
  participants : List String
  isConnected : Bool
  error : Option String

/-- initialState of the collaboration slice. -/
def initialState : CollaborationState :=
  { activeDocumentId := none
    cursors := []
    comments := []
    documentLock := { isLocked := false, lockedBy := none, lockedAt := none }
    participants := []
    isConnected := false
    error := none }

namespace Slice

/-- Reducer updateCursor: writes the cursor entry for userId with the
given position and the current time, unconditionally. -/
def updateCursor (s : CollaborationState) (userId : String) (position : Position)
    (now : String) : CollaborationState :=
  { s with cursors :=
      recSet s.cursors userId { userId := userId, position := position, lastUpdate := now } }

/-- Reducer addComment: ensures the per-document list exists, then pushes
the comment at its end. -/
def addComment (s : CollaborationState) (documentId : String) (comment : Comment) :
    CollaborationState :=
  { s with comments :=
      recSet s.comments documentId ((recGet? s.comments documentId).getD [] ++ [comment]) }

/-- Reducer addReply: finds the comment with the given id in the
per-document list and pushes the reply onto it; silently does nothing if
the document key or the comment is absent. -/
def addReply (s : CollaborationState) (documentId : String) (commentId : Nat)
    (reply : Comment) : CollaborationState :=
  match recGet? s.comments documentId with
  | none => s
  | some cs =>
      if cs.any (fun c => c.id == commentId) then
        { s with comments :=
            (recSet s.comments documentId
              (updateFirst (fun c => c.id == commentId) (fun c => c.pushReply reply) cs)) }
      else s

/-- Reducer clearCollaborationState: resets every field. -/
def clearCollaborationState (_s : CollaborationState) : CollaborationState :=
  { activeDocumentId := none
    cursors := []
    comments := []
    documentLock := { isLocked := false, lockedBy := none, lockedAt := none }
    participants := []
    isConnected := false
    error := none }

end Slice

namespace LockMgr

/-- Modelled from the spec: the Edit Lock Manager (section 4.3) has no
implementation under the repository sources; only its client mirrors
exist (the isLocked/lockOwner state of CollaborativeEditor and the
documentLock field of the redux slice, both of which record at most one
holder).  Errors of the lock state machine. -/
inductive LockError : Type where
  | LockHeld (holder : String)
  | NotLockHolder
  deriving DecidableEq, Repr

/-- Modelled from the spec: acquire(participantId) on the lock state
(none = Unlocked, some h = Locked(h)).  From Unlocked it transitions to
Locked(participantId) and succeeds; from Locked(other) it fails with
LockHeld reporting the current holder; from Locked(self) it succeeds
idempotently. -/
def acquire (st : Option String) (p : String) : Except LockError (Option String) :=
  match st with
  | none => Except.ok (some p)
  | some q => if q = p then Except.ok (some q) else Except.error (LockError.LockHeld q)

/-- Modelled from the spec: release(participantId).  From Locked(self) it
transitions to Unlocked; from Locked(other) it fails with NotLockHolder;
from Unlocked it is a no-op success. -/
def release (st : Option String) (p : String) : Except LockError (Option String) :=
  match st with
  | none => Except.ok none
  | some q => if q = p then Except.ok none else Except.error LockError.NotLockHolder

/-- An acquire or release request by a participant. -/
inductive LockOp : Type where
  | acq (p : String)
  | rel (p : String)
  deriving DecidableEq, Repr

/-- One step of the lock state machine: a failed request leaves the state
unchanged (errors are only reported back to the requester). -/
def step (st : Option String) (op : LockOp) : Option String :=
  match op with
  | LockOp.acq p => match acquire st p with
    | Except.ok st2 => st2
    | Except.error _ => st
  | LockOp.rel p => match release st p with
    | Except.ok st2 => st2
    | Except.error _ => st

/-- Run a sequence of acquire/release requests from the Unlocked state. -/
def run (ops : List LockOp) : Option String := ops.foldl step none

/-- A participant observes lock-held-by-self when the state names it as holder. -/
def heldBySelf (st : Option String) (p : String) : Prop := st = some p

end LockMgr

/-- Claim C1: for every sequence of acquire/release operations on one
session, at most one participant observes lock-held-by-self at any time,
and the lock state is either unheld or names exactly one holder. -/
theorem lock_mutual_exclusion (ops : List LockMgr.LockOp) :
    (∀ p q : String, LockMgr.heldBySelf (LockMgr.run ops) p →
      LockMgr.heldBySelf (LockMgr.run ops) q → p = q) ∧
    (LockMgr.run ops = none ∨
      ∃ h : String, LockMgr.run ops = some h ∧
        ∀ q : String, LockMgr.heldBySelf (LockMgr.run ops) q → q = h) := by
  constructor
  · intro p q hp hq
    rw [LockMgr.heldBySelf] at hp hq
    rw [hp] at hq
    exact Option.some.inj hq
  · cases hrun : LockMgr.run ops with
    | none => exact Or.inl rfl
    | some h =>
        refine Or.inr ⟨h, rfl, ?_⟩
        intro q hq
        rw [LockMgr.heldBySelf] at hq
        exact (Option.some.inj hq).symm

/-- Witness for C1: running the single request acquire(A) yields a state
where A holds the lock, and the mutual-exclusion theorem applied there
identifies any two observed holders. -/
theorem lock_mutual_exclusion_witness :
    LockMgr.heldBySelf (LockMgr.run [LockMgr.LockOp.acq "A"]) "A" ∧ "A" = "A" :=
  ⟨rfl, (lock_mutual_exclusion [LockMgr.LockOp.acq "A"]).1 "A" "A" rfl rfl⟩

/-- Claim C6: acquire from Unlocked transitions to Locked(participantId)
and succeeds; from Locked(other) it fails with LockHeld reporting the
current holder and a failed acquire leaves the state unchanged; from
Locked(self) it succeeds idempotently without changing the state. -/
theorem acquire_state_machine (p q : String) (hne : q ≠ p) :
    LockMgr.acquire none p = Except.ok (some p) ∧
    LockMgr.acquire (some q) p = Except.error (LockMgr.LockError.LockHeld q) ∧
    LockMgr.step (some q) (LockMgr.LockOp.acq p) = some q ∧
    LockMgr.acquire (some p) p = Except.ok (some p) ∧
    LockMgr.step (some p) (LockMgr.LockOp.acq p) = some p := by
  refine ⟨rfl, ?_, ?_, ?_, ?_⟩
  · rw [LockMgr.acquire]
    simp [hne]
  · rw [LockMgr.step, LockMgr.acquire]
    simp [hne]
  · rw [LockMgr.acquire]
    simp
  · rw [LockMgr.step, LockMgr.acquire]
    simp

/-- Witness for C6: the acquire state machine at holder A and requester B. -/
theorem acquire_state_machine_witness :
    ("A" : String) ≠ "B" ∧
    LockMgr.acquire (some "A") "B" = Except.error (LockMgr.LockError.LockHeld "A") :=
  ⟨by decide, (acquire_state_machine "B" "A" (by decide)).2.1⟩

theorem recGet?_recSet_self {α : Type} (m : List (String × α)) (k : String) (v : α) :
    recGet? (recSet m k v) k = some v := by
  induction m with
  | nil => simp [recSet, recGet?]
  | cons hd t ih =>
      by_cases h : hd.1 = k
      · simp [recSet, recGet?, h]
      · simp only [recSet, recGet?]
        rw [if_neg (by simpa using h)]
        simp only [recGet?]
        rw [if_neg (by simpa using h)]
        exact ih

theorem recGet?_recSet_ne {α : Type} (m : List (String × α)) (k q : String) (v : α)
    (hne : q ≠ k) : recGet? (recSet m k v) q = recGet? m q := by
  induction m with
  | nil =>
      simp only [recSet, recGet?]
      rw [if_neg (by simpa using (fun h => hne h.symm))]
  | cons hd t ih =>
      by_cases h : hd.1 = k
      · simp only [recSet]
        rw [if_pos (by simpa using h)]
        simp only [recGet?]
        rw [if_neg (by simpa using (fun hkq => hne hkq.symm)), h]
        rw [if_neg (by simpa using (fun hkq => hne hkq.symm))]
      · simp only [recSet]
        rw [if_neg (by simpa using h)]
        simp only [recGet?]
        by_cases h2 : hd.1 = q
        · rw [if_pos (by simpa using h2), if_pos (by simpa using h2)]
        · rw [if_neg (by simpa using h2), if_neg (by simpa using h2)]
          exact ih

/-- A collaboration session as described by the spec data model: ordered
participant list, per-participant cursor position with last-activity
timestamp, and the edit lock holder. -/
structure Session where
  participants : List String
  cursors : List (String × (Position × String))
  lockHolder : Option String

namespace Presence

/-- Error of the Presence Tracker for a message from a non-member. -/
inductive PresenceError : Type where
  | UnknownParticipant
  deriving DecidableEq, Repr

/-- Modelled from the spec: the Presence Tracker (section 4.2) has no
implementation under the repository sources; the redux updateCursor
reducer and the cursor_update handler of CollaborativeEditor are its
client mirrors and apply server-validated events without a membership
check.  updateCursor(participantId, position) fails with
UnknownParticipant when the participant is not in the session, otherwise
overwrites the cursor position and the activity timestamp
unconditionally. -/
def updateCursor (s : Session) (p : String) (pos : Position) (now : String) :
    Except PresenceError Session :=
  if p ∈ s.participants then
    Except.ok { s with cursors := recSet s.cursors p (pos, now) }
  else Except.error PresenceError.UnknownParticipant

end Presence

/-- Claim C4: updateCursor(participantId, position) fails with
UnknownParticipant whenever participantId is not a participant of the
session, and for every participant in the session it unconditionally
overwrites that participant's stored cursor position and activity
timestamp, last write wins, regardless of the previous value, leaving
every other participant's cursor and the rest of the session unchanged. -/
theorem updateCursor_last_write_wins (s : Session) (p : String) (pos : Position)
    (now : String) :
    (p ∉ s.participants →
      Presence.updateCursor s p pos now =
        Except.error Presence.PresenceError.UnknownParticipant) ∧
    (p ∈ s.participants → ∃ s2 : Session,
      Presence.updateCursor s p pos now = Except.ok s2 ∧
      recGet? s2.cursors p = some (pos, now) ∧
      (∀ q : String, q ≠ p → recGet? s2.cursors q = recGet? s.cursors q) ∧
      s2.participants = s.participants ∧ s2.lockHolder = s.lockHolder) := by
  constructor
  · intro hnm
    rw [Presence.updateCursor, if_neg hnm]
  · intro hm
    refine ⟨{ s with cursors := recSet s.cursors p (pos, now) }, ?_, ?_, ?_, rfl, rfl⟩
    · rw [Presence.updateCursor, if_pos hm]
    · exact recGet?_recSet_self s.cursors p (pos, now)
    · intro q hq
      exact recGet?_recSet_ne s.cursors p q (pos, now) hq

/-- Witness for C4: a cursor update from a non-member fails, and a cursor
update from the sole member overwrites its stored cursor. -/
theorem updateCursor_last_write_wins_witness :
    Presence.updateCursor ⟨[], [], none⟩ "B" ⟨0, 0, 1⟩ "t0" =
      Except.error Presence.PresenceError.UnknownParticipant ∧
    (∃ s2 : Session,
      Presence.updateCursor ⟨["A"], [("A", (⟨9, 9, 9⟩, "old"))], none⟩ "A" ⟨1, 2, 3⟩ "t1" =
        Except.ok s2 ∧ recGet? s2.cursors "A" = some (⟨1, 2, 3⟩, "t1")) := by
  constructor
  · exact (updateCursor_last_write_wins ⟨[], [], none⟩ "B" ⟨0, 0, 1⟩ "t0").1 (by simp)
  · obtain ⟨s2, h1, h2, _⟩ :=
      (updateCursor_last_write_wins ⟨["A"], [("A", (⟨9, 9, 9⟩, "old"))], none⟩
        "A" ⟨1, 2, 3⟩ "t1").2 (by simp)
    exact ⟨s2, h1, h2⟩

/-- Modelled from the spec: the per-session event alphabet of the
Connection Lifecycle Manager (sections 4.3, 4.6): join, disconnect,
lock acquire, lock release, cursor update. -/
inductive SEvent : Type where
  | join (p : String)
  | disconnect (p : String)
  | acq (p : String)
  | rel (p : String)
  | cursor (p : String) (pos : Position) (now : String)

/-- Modelled from the spec: one serialized step of a session.  join adds
the participant at the end (a duplicate join supersedes the older
connection, leaving the participant set unchanged); disconnect removes
the participant and, atomically in the same step, force-releases the
lock if the departing participant holds it; a lock or cursor request
from a non-member is dropped; a failed request leaves the session
unchanged. -/
def sessionStep (s : Session) (e : SEvent) : Session :=
  match e with
  | SEvent.join p =>
      if p ∈ s.participants then s
      else { s with participants := s.participants ++ [p] }
  | SEvent.disconnect p =>
      { participants := s.participants.filter (fun q => q != p)
        cursors := recDel s.cursors p
        lockHolder := if s.lockHolder = some p then none else s.lockHolder }
  | SEvent.acq p =>
      if p ∈ s.participants then
        match LockMgr.acquire s.lockHolder p with
        | Except.ok st2 => { s with lockHolder := st2 }
        | Except.error _ => s
      else s
  | SEvent.rel p =>
      if p ∈ s.participants then
        match LockMgr.release s.lockHolder p with
        | Except.ok st2 => { s with lockHolder := st2 }
        | Except.error _ => s
      else s
  | SEvent.cursor p pos now =>
      match Presence.updateCursor s p pos now with
      | Except.ok s2 => s2
      | Except.error _ => s

/-- The session created on first connection: no participants, no cursors,
no lock holder. -/
def emptySession : Session := ⟨[], [], none⟩

/-- Run a sequence of session events from the fresh session. -/
def sessionRun (events : List SEvent) : Session :=
  events.foldl sessionStep emptySession

/-- The lock is only ever held by a current participant. -/
def holderInSession (s : Session) : Prop :=
  ∀ p : String, s.lockHolder = some p → p ∈ s.participants

theorem holderInSession_step (s : Session) (e : SEvent) (h : holderInSession s) :
    holderInSession (sessionStep s e) := by
  cases e with
  | join p =>
      intro q hq
      rw [sessionStep] at hq ⊢
      by_cases hp : p ∈ s.participants
      · rw [if_pos hp] at hq ⊢
        exact h q hq
      · rw [if_neg hp] at hq ⊢
        exact List.mem_append_left _ (h q hq)
  | disconnect p =>
      intro q hq
      rw [sessionStep] at hq ⊢
      simp only at hq
      by_cases hl : s.lockHolder = some p
      · rw [if_pos hl] at hq
        exact absurd hq (by simp)
      · rw [if_neg hl] at hq
        have hqp : q ≠ p := fun hqp => hl (hqp ▸ hq)
        simp only [List.mem_filter]
        exact ⟨h q hq, by simpa using hqp⟩
  | acq p =>
      intro q hq
      rw [sessionStep] at hq ⊢
      by_cases hp : p ∈ s.participants
      · rw [if_pos hp] at hq ⊢
        cases hacq : LockMgr.acquire s.lockHolder p with
        | ok st2 =>
            rw [hacq] at hq
            have hq2 : st2 = some q := hq
            show q ∈ s.participants
            cases hl : s.lockHolder with
            | none =>
                rw [hl] at hacq
                simp only [LockMgr.acquire] at hacq
                injection hacq with hst
                rw [← hst] at hq2
                have hpq : p = q := Option.some.inj hq2
                exact hpq ▸ hp
            | some r =>
                rw [hl] at hacq
                by_cases hrp : r = p
                · simp only [LockMgr.acquire, if_pos hrp] at hacq
                  injection hacq with hst
                  rw [← hst] at hq2
                  have hrq : r = q := Option.some.inj hq2
                  exact hrq ▸ (h r hl)
                · simp only [LockMgr.acquire, if_neg hrp] at hacq
                  exact Except.noConfusion hacq
        | error err =>
            rw [hacq] at hq
            have hq2 : s.lockHolder = some q := hq
            show q ∈ s.participants
            exact h q hq2
      · rw [if_neg hp] at hq ⊢
        exact h q hq
  | rel p =>
      intro q hq
      rw [sessionStep] at hq ⊢
      by_cases hp : p ∈ s.participants
      · rw [if_pos hp] at hq ⊢
        cases hrel : LockMgr.release s.lockHolder p with
        | ok st2 =>
            rw [hrel] at hq
            have hq2 : st2 = some q := hq
            show q ∈ s.participants
            cases hl : s.lockHolder with
            | none =>
                rw [hl] at hrel
                simp only [LockMgr.release] at hrel
                injection hrel with hst
                rw [← hst] at hq2
                exact Option.noConfusion hq2
            | some r =>
                rw [hl] at hrel
                by_cases hrp : r = p
                · simp only [LockMgr.release, if_pos hrp] at hrel
                  injection hrel with hst
                  rw [← hst] at hq2
                  exact Option.noConfusion hq2
                · simp only [LockMgr.release, if_neg hrp] at hrel
                  exact Except.noConfusion hrel
        | error err =>
            rw [hrel] at hq
            have hq2 : s.lockHolder = some q := hq
            show q ∈ s.participants
            exact h q hq2
      · rw [if_neg hp] at hq ⊢
        exact h q hq
  | cursor p pos now =>
      intro q hq
      rw [sessionStep] at hq ⊢
      rw [Presence.updateCursor] at hq ⊢
      by_cases hp : p ∈ s.participants
      · rw [if_pos hp] at hq ⊢
        exact h q hq
      · rw [if_neg hp] at hq ⊢
        exact h q hq

theorem holderInSession_foldl (events : List SEvent) :
    ∀ s : Session, holderInSession s →
      holderInSession (events.foldl sessionStep s) := by
  induction events with
  | nil => intro s h; exact h
  | cons e t ih =>
      intro s h
      exact ih (sessionStep s e) (holderInSession_step s e h)

/-- Claim C5: in every reachable session state the lock is never held by a
participant who is no longer in the session; when the holder disconnects
the lock transitions to Unlocked atomically with the removal, and a
subsequent acquire by a remaining participant succeeds. -/
theorem lock_released_on_disconnect (events : List SEvent) (s : Session) (p q : String) :
    holderInSession (sessionRun events) ∧
    (s.lockHolder = some p →
      (sessionStep s (SEvent.disconnect p)).lockHolder = none ∧
      p ∉ (sessionStep s (SEvent.disconnect p)).participants) ∧
    (s.lockHolder = some p → q ∈ s.participants → q ≠ p →
      (sessionStep (sessionStep s (SEvent.disconnect p)) (SEvent.acq q)).lockHolder =
        some q) := by
  refine ⟨holderInSession_foldl events emptySession (by intro r hr; cases hr), ?_, ?_⟩
  · intro hl
    constructor
    · rw [sessionStep]
      simp only
      rw [if_pos hl]
    · rw [sessionStep]
      simp only [List.mem_filter]
      intro hmem
      exact absurd hmem.2 (by simp)
  · intro hl hq hqp
    have hmem : q ∈ (sessionStep s (SEvent.disconnect p)).participants := by
      rw [sessionStep]
      simp only [List.mem_filter]
      exact ⟨hq, by simpa using hqp⟩
    have hnone : (sessionStep s (SEvent.disconnect p)).lockHolder = none := by
      rw [sessionStep]
      simp only
      rw [if_pos hl]
    have key : ∀ s2 : Session, q ∈ s2.participants → s2.lockHolder = none →
        (sessionStep s2 (SEvent.acq q)).lockHolder = some q := by
      intro s2 hm hn
      rw [sessionStep, if_pos hm, hn]
      rfl
    exact key (sessionStep s (SEvent.disconnect p)) hmem hnone

/-- Witness for C5: with A holding the lock in a two-member session, the
disconnect of A unlocks and removes A in one step, after which B acquires
successfully. -/
theorem lock_released_on_disconnect_witness :
    ((⟨["A", "B"], [], some "A"⟩ : Session).lockHolder = some "A" ∧
      "B" ∈ (⟨["A", "B"], [], some "A"⟩ : Session).participants ∧ ("B" : String) ≠ "A") ∧
    (sessionStep (⟨["A", "B"], [], some "A"⟩ : Session) (SEvent.disconnect "A")).lockHolder
        = none ∧
    (sessionStep (sessionStep (⟨["A", "B"], [], some "A"⟩ : Session)
        (SEvent.disconnect "A")) (SEvent.acq "B")).lockHolder = some "B" := by
  refine ⟨⟨rfl, by simp, by decide⟩, ?_, ?_⟩
  · exact ((lock_released_on_disconnect [] ⟨["A", "B"], [], some "A"⟩ "A" "B").2.1 rfl).1
  · exact (lock_released_on_disconnect [] ⟨["A", "B"], [], some "A"⟩ "A" "B").2.2 rfl
      (by simp) (by decide)

theorem updateFirst_append_cons {α : Type} (p : α → Bool) (f : α → α)
    (l1 : List α) (x : α) (l2 : List α)
    (h1 : ∀ y ∈ l1, p y = false) (hx : p x = true) :
    updateFirst p f (l1 ++ x :: l2) = l1 ++ f x :: l2 := by
  induction l1 with
  | nil =>
      simp only [List.nil_append, updateFirst]
      rw [if_pos hx]
  | cons a t ih =>
      have ha : p a = false := h1 a (by simp)
      simp only [List.cons_append, updateFirst]
      rw [if_neg (by simp [ha])]
      exact congrArg (List.cons a) (ih (fun y hy => h1 y (by simp [hy])))

theorem updateFirst_mem {α : Type} (p : α → Bool) (f : α → α) (l : List α) (y : α)
    (hy : y ∈ updateFirst p f l) : y ∈ l ∨ ∃ x ∈ l, y = f x := by
  induction l with
  | nil => cases hy
  | cons a t ih =>
      by_cases ha : p a = true
      · rw [updateFirst, if_pos ha] at hy
        rcases List.mem_cons.mp hy with h | h
        · exact Or.inr ⟨a, by simp, h⟩
        · exact Or.inl (List.mem_cons_of_mem a h)
      · rw [updateFirst, if_neg ha] at hy
        rcases List.mem_cons.mp hy with h | h
        · exact Or.inl (h ▸ List.mem_cons_self a t)
        · rcases ih h with h2 | ⟨x, hx, hfx⟩
          · exact Or.inl (List.mem_cons_of_mem a h2)
          · exact Or.inr ⟨x, List.mem_cons_of_mem a hx, hfx⟩

theorem updateFirst_map_eq {α β : Type} (p : α → Bool) (f : α → α) (g : α → β)
    (l : List α) (hf : ∀ x, g (f x) = g x) :
    (updateFirst p f l).map g = l.map g := by
  induction l with
  | nil => rfl
  | cons a t ih =>
      by_cases ha : p a = true
      · rw [updateFirst, if_pos ha]
        simp [hf a]
      · rw [updateFirst, if_neg ha]
        simp [ih]

namespace Store

/-- Modelled from the spec: the reply shape of the Comment Thread Store
(section 4.4); replies carry their own sequence id, author, content and
timestamp, one nesting level deep per the design note of section 9. -/
structure Reply where
  id : Nat
  authorId : String
  content : String
  createdAt : String
  deriving DecidableEq, Repr

/-- Modelled from the spec: a stored comment of the Comment Thread Store
(section 3 data model): sequence id, author id, content, position,
creation timestamp, resolved flag and ordered reply list. -/
structure SComment where
  id : Nat
  authorId : String
  content : String
  position : Position
  createdAt : String
  resolved : Bool
  replies : List Reply
  deriving DecidableEq, Repr

/-- Modelled from the spec: the per-session Comment Thread Store, an
ordered append-only comment list and the single session-wide id counter
shared by comments and replies. -/
structure CommentStore where
  nextId : Nat
  comments : List SComment
  deriving DecidableEq, Repr

/-- The fresh store of a new session: the counter starts at 1. -/
def empty : CommentStore := ⟨1, []⟩

/-- Errors of the Comment Thread Store. -/
inductive StoreError : Type where
  | CommentNotFound
  | EmptyContent
  deriving DecidableEq, Repr

/-- Modelled from the spec: addComment validates that the content is
non-empty, assigns the next sequence id, appends at the end of the
ordered comment list and returns the created comment. -/
def addComment (s : CommentStore) (authorId content : String) (pos : Position)
    (now : String) : Except StoreError (CommentStore × SComment) :=
  if content.isEmpty then Except.error StoreError.EmptyContent
  else
    Except.ok (⟨s.nextId + 1, s.comments ++ [⟨s.nextId, authorId, content, pos, now, false, []⟩]⟩,
      ⟨s.nextId, authorId, content, pos, now, false, []⟩)

/-- Modelled from the spec: addReply fails with CommentNotFound when no
comment carries the given id, otherwise appends a reply carrying the next
sequence id from the same session-wide counter to the end of the reply
list of the first comment with that id. -/
def addReply (s : CommentStore) (commentId : Nat) (authorId content : String)
    (now : String) : Except StoreError (CommentStore × Reply) :=
  if s.comments.any (fun c => c.id == commentId) then
    Except.ok (⟨s.nextId + 1,
      (updateFirst (fun c => c.id == commentId)
        (fun c => { c with replies := c.replies ++ [⟨s.nextId, authorId, content, now⟩] })
        s.comments)⟩,
      ⟨s.nextId, authorId, content, now⟩)
  else Except.error StoreError.CommentNotFound

/-- Modelled from the spec: resolve fails with CommentNotFound when the
comment is absent and otherwise sets its resolved flag to true; resolving
an already-resolved comment is an idempotent success. -/
def resolve (s : CommentStore) (commentId : Nat) : Except StoreError CommentStore :=
  if s.comments.any (fun c => c.id == commentId) then
    Except.ok ⟨s.nextId,
      updateFirst (fun c => c.id == commentId) (fun c => { c with resolved := true })
        s.comments⟩
  else Except.error StoreError.CommentNotFound

/-- Modelled from the spec: list returns the stored comments in order. -/
def list (s : CommentStore) : List SComment := s.comments

end Store

/-- Claim C2: addReply fails with CommentNotFound whenever the comment id
does not identify an existing comment in the session, and for every
existing comment id it appends the new reply to the end of the reply list
of that comment, leaving every other comment and its order unchanged. -/
theorem addReply_append_or_not_found (s : Store.CommentStore) (cid : Nat)
    (a t now : String) :
    ((∀ c ∈ s.comments, c.id ≠ cid) →
      Store.addReply s cid a t now = Except.error Store.StoreError.CommentNotFound) ∧
    (∀ (l1 : List Store.SComment) (c : Store.SComment) (l2 : List Store.SComment),
      s.comments = l1 ++ c :: l2 → (∀ d ∈ l1, d.id ≠ cid) → c.id = cid →
      Store.addReply s cid a t now =
        Except.ok (⟨s.nextId + 1,
          l1 ++ { c with replies := c.replies ++ [⟨s.nextId, a, t, now⟩] } :: l2⟩,
          ⟨s.nextId, a, t, now⟩)) := by
  constructor
  · intro h
    rw [Store.addReply, if_neg]
    intro hany
    rcases List.any_eq_true.mp hany with ⟨c, hc, hcid⟩
    exact h c hc (by simpa using hcid)
  · intro l1 c l2 hs hl1 hc
    have hany : s.comments.any (fun d => d.id == cid) = true := by
      refine List.any_eq_true.mpr ⟨c, ?_, by simpa using hc⟩
      rw [hs]
      exact List.mem_append_right l1 (List.mem_cons_self c l2)
    rw [Store.addReply, if_pos hany, hs]
    rw [updateFirst_append_cons (fun d => d.id == cid) _ l1 c l2
      (fun y hy => by simpa using hl1 y hy) (by simpa using hc)]

/-- Witness for C2: on a store holding comments 1 and 2, a reply to the
missing id 7 fails with CommentNotFound, and a reply to comment 2 is
appended at the end of the reply list of comment 2 while comment 1 is
unchanged. -/
theorem addReply_append_or_not_found_witness :
    Store.addReply ⟨3, [⟨1, "A", "hi", ⟨0, 0, 1⟩, "t1", false, []⟩,
        ⟨2, "B", "yo", ⟨1, 1, 1⟩, "t2", false, []⟩]⟩ 7 "B" "agreed" "t3" =
      Except.error Store.StoreError.CommentNotFound ∧
    Store.addReply ⟨3, [⟨1, "A", "hi", ⟨0, 0, 1⟩, "t1", false, []⟩,
        ⟨2, "B", "yo", ⟨1, 1, 1⟩, "t2", false, []⟩]⟩ 2 "B" "agreed" "t3" =
      Except.ok (⟨4, [⟨1, "A", "hi", ⟨0, 0, 1⟩, "t1", false, []⟩,
        ⟨2, "B", "yo", ⟨1, 1, 1⟩, "t2", false, [⟨3, "B", "agreed", "t3"⟩]⟩]⟩,
        ⟨3, "B", "agreed", "t3"⟩) := by
  constructor
  · exact (addReply_append_or_not_found ⟨3, [⟨1, "A", "hi", ⟨0, 0, 1⟩, "t1", false, []⟩,
      ⟨2, "B", "yo", ⟨1, 1, 1⟩, "t2", false, []⟩]⟩ 7 "B" "agreed" "t3").1 (by decide)
  · exact (addReply_append_or_not_found ⟨3, [⟨1, "A", "hi", ⟨0, 0, 1⟩, "t1", false, []⟩,
      ⟨2, "B", "yo", ⟨1, 1, 1⟩, "t2", false, []⟩]⟩ 2 "B" "agreed" "t3").2
      [⟨1, "A", "hi", ⟨0, 0, 1⟩, "t1", false, []⟩]
      ⟨2, "B", "yo", ⟨1, 1, 1⟩, "t2", false, []⟩ [] rfl (by decide) rfl

/-- Claim C7: resolve on an existing comment sets its resolved flag to
true and changes no other field of that comment and no other comment;
applied to an already-resolved comment it succeeds idempotently, leaving
the entire comment list unchanged. -/
theorem resolve_sets_flag_idempotent (s : Store.CommentStore) (cid : Nat)
    (l1 : List Store.SComment) (c : Store.SComment) (l2 : List Store.SComment)
    (hs : s.comments = l1 ++ c :: l2) (hl1 : ∀ d ∈ l1, d.id ≠ cid) (hc : c.id = cid) :
    Store.resolve s cid = Except.ok ⟨s.nextId, l1 ++ { c with resolved := true } :: l2⟩ ∧
    (c.resolved = true → Store.resolve s cid = Except.ok s) := by
  have hany : s.comments.any (fun d => d.id == cid) = true := by
    refine List.any_eq_true.mpr ⟨c, ?_, by simpa using hc⟩
    rw [hs]
    exact List.mem_append_right l1 (List.mem_cons_self c l2)
  have hmain : Store.resolve s cid =
      Except.ok ⟨s.nextId, l1 ++ { c with resolved := true } :: l2⟩ := by
    rw [Store.resolve, if_pos hany, hs]
    rw [updateFirst_append_cons (fun d => d.id == cid) _ l1 c l2
      (fun y hy => by simpa using hl1 y hy) (by simpa using hc)]
  refine ⟨hmain, ?_⟩
  intro hres
  rw [hmain]
  have hcc : { c with resolved := true } = c := by
    cases c with
    | mk i a t p ts r rs => simp only at hres; rw [hres]
  rw [hcc, ← hs]

/-- Witness for C7: resolving comment 1 sets its flag, and resolving an
already-resolved comment returns the store unchanged. -/
theorem resolve_sets_flag_idempotent_witness :
    Store.resolve ⟨2, [⟨1, "A", "hi", ⟨0, 0, 1⟩, "t1", false, []⟩]⟩ 1 =
      Except.ok ⟨2, [⟨1, "A", "hi", ⟨0, 0, 1⟩, "t1", true, []⟩]⟩ ∧
    Store.resolve ⟨2, [⟨1, "A", "hi", ⟨0, 0, 1⟩, "t1", true, []⟩]⟩ 1 =
      Except.ok ⟨2, [⟨1, "A", "hi", ⟨0, 0, 1⟩, "t1", true, []⟩]⟩ := by
  constructor
  · exact (resolve_sets_flag_idempotent ⟨2, [⟨1, "A", "hi", ⟨0, 0, 1⟩, "t1", false, []⟩]⟩ 1
      [] ⟨1, "A", "hi", ⟨0, 0, 1⟩, "t1", false, []⟩ [] rfl (by simp) rfl).1
  · exact (resolve_sets_flag_idempotent ⟨2, [⟨1, "A", "hi", ⟨0, 0, 1⟩, "t1", true, []⟩]⟩ 1
      [] ⟨1, "A", "hi", ⟨0, 0, 1⟩, "t1", true, []⟩ [] rfl (by simp) rfl).2 rfl

/-- Modelled from the spec: the operations of the Comment Thread Store
that a session can receive. -/
inductive StoreOp : Type where
  | add (authorId content : String) (pos : Position) (now : String)
  | reply (commentId : Nat) (authorId content : String) (now : String)
  | res (commentId : Nat)

/-- One store operation applied to a store paired with the trace of ids
assigned so far; a failed operation assigns no id and leaves the store
unchanged, resolve never assigns an id. -/
def stepIds (acc : Store.CommentStore × List Nat) (op : StoreOp) :
    Store.CommentStore × List Nat :=
  match op with
  | StoreOp.add a t pos now =>
      match Store.addComment acc.1 a t pos now with
      | Except.ok pr => (pr.1, acc.2 ++ [pr.2.id])
      | Except.error _ => acc
  | StoreOp.reply cid a t now =>
      match Store.addReply acc.1 cid a t now with
      | Except.ok pr => (pr.1, acc.2 ++ [pr.2.id])
      | Except.error _ => acc
  | StoreOp.res cid =>
      match Store.resolve acc.1 cid with
      | Except.ok s2 => (s2, acc.2)
      | Except.error _ => acc

/-- Run a sequence of store operations on the fresh store of a session,
collecting the ids assigned to comments and replies in order. -/
def runIds (ops : List StoreOp) : Store.CommentStore × List Nat :=
  ops.foldl stepIds (Store.empty, [])

/-- The id trace is exactly 1, 2, ... and the counter sits one past it. -/
def IdsInv (acc : Store.CommentStore × List Nat) : Prop :=
  acc.2 = List.range' 1 acc.2.length ∧ acc.1.nextId = acc.2.length + 1

theorem IdsInv_step (acc : Store.CommentStore × List Nat) (op : StoreOp)
    (h : IdsInv acc) : IdsInv (stepIds acc op) := by
  obtain ⟨h1, h2⟩ := h
  have hsnoc : acc.2 ++ [acc.1.nextId] = List.range' 1 (acc.2.length + 1) := by
    have hr : List.range' 1 (acc.2.length + 1) =
        List.range' 1 acc.2.length ++ [1 + 1 * acc.2.length] :=
      List.range'_concat 1 acc.2.length
    rw [hr, ← h1, h2]
    simp [Nat.add_comm]
  cases op with
  | add a t pos now =>
      by_cases he : t.isEmpty = true
      · have : stepIds acc (StoreOp.add a t pos now) = acc := by
          rw [stepIds]
          simp only [Store.addComment]
          rw [if_pos he]
        rw [this]
        exact ⟨h1, h2⟩
      · have : stepIds acc (StoreOp.add a t pos now) =
            (⟨acc.1.nextId + 1, acc.1.comments ++
              [⟨acc.1.nextId, a, t, pos, now, false, []⟩]⟩, acc.2 ++ [acc.1.nextId]) := by
          rw [stepIds]
          simp only [Store.addComment]
          rw [if_neg he]
        rw [this]
        refine ⟨?_, ?_⟩
        · simp only
          rw [hsnoc]
          simp
        · simp only
          rw [h2]
          simp
  | reply cid a t now =>
      by_cases hf : acc.1.comments.any (fun c => c.id == cid) = true
      · have : stepIds acc (StoreOp.reply cid a t now) =
            (⟨acc.1.nextId + 1,
              updateFirst (fun c => c.id == cid)
                (fun c => { c with replies :=
                  c.replies ++ [⟨acc.1.nextId, a, t, now⟩] }) acc.1.comments⟩,
              acc.2 ++ [acc.1.nextId]) := by
          rw [stepIds]
          simp only [Store.addReply]
          rw [if_pos hf]
        rw [this]
        refine ⟨?_, ?_⟩
        · simp only
          rw [hsnoc]
          simp
        · simp only
          rw [h2]
          simp
      · have : stepIds acc (StoreOp.reply cid a t now) = acc := by
          rw [stepIds]
          simp only [Store.addReply]
          rw [if_neg hf]
        rw [this]
        exact ⟨h1, h2⟩
  | res cid =>
      by_cases hf : acc.1.comments.any (fun c => c.id == cid) = true
      · have : stepIds acc (StoreOp.res cid) =
            (⟨acc.1.nextId,
              updateFirst (fun c => c.id == cid)
                (fun c => { c with resolved := true }) acc.1.comments⟩, acc.2) := by
          rw [stepIds]
          simp only [Store.resolve]
          rw [if_pos hf]
        rw [this]
        exact ⟨h1, h2⟩
      · have : stepIds acc (StoreOp.res cid) = acc := by
          rw [stepIds]
          simp only [Store.resolve]
          rw [if_neg hf]
        rw [this]
        exact ⟨h1, h2⟩

theorem IdsInv_foldl (ops : List StoreOp) :
    ∀ acc : Store.CommentStore × List Nat, IdsInv acc →
      IdsInv (ops.foldl stepIds acc) := by
  induction ops with
  | nil => intro acc h; exact h
  | cons op t ih => intro acc h; exact ih (stepIds acc op) (IdsInv_step acc op h)

/-- Claim C3: along every sequence of store operations on one session the
assigned ids (for comments and replies alike, drawn from the single
session-wide counter) form exactly the strictly increasing sequence
1, 2, ..., so every assigned id is unique and never reused. -/
theorem ids_strictly_increasing_from_one (ops : List StoreOp) :
    (runIds ops).2 = List.range' 1 (runIds ops).2.length ∧
    (runIds ops).2.Chain' (· < ·) ∧
    (runIds ops).2.Nodup ∧
    (∀ i ∈ (runIds ops).2, 1 ≤ i ∧ i ≤ (runIds ops).2.length) := by
  have hinv : IdsInv (runIds ops) :=
    IdsInv_foldl ops (Store.empty, []) ⟨rfl, rfl⟩
  obtain ⟨h1, _⟩ := hinv
  refine ⟨h1, ?_, ?_, ?_⟩
  · rw [h1]
    exact (List.pairwise_lt_range' 1 (runIds ops).2.length).chain'
  · rw [h1]
    exact List.nodup_range' 1 (runIds ops).2.length
  · intro i hi
    rw [h1] at hi
    rcases List.mem_range'.mp hi with ⟨j, hj, hij⟩
    omega

/-- Witness for C3: with one comment and one reply the assigned id trace
is 1, 2, and the theorem bounds the member 2 of that trace. -/
theorem ids_strictly_increasing_from_one_witness :
    (runIds [StoreOp.add "A" "hi" ⟨0, 0, 1⟩ "t1", StoreOp.reply 1 "B" "yo" "t2"]).2 =
      [1, 2] ∧
    (1 ≤ 2 ∧ 2 ≤ (runIds [StoreOp.add "A" "hi" ⟨0, 0, 1⟩ "t1",
      StoreOp.reply 1 "B" "yo" "t2"]).2.length) := by
  constructor
  · rfl
  · exact (ids_strictly_increasing_from_one
      [StoreOp.add "A" "hi" ⟨0, 0, 1⟩ "t1", StoreOp.reply 1 "B" "yo" "t2"]).2.2.2 2
      (by rw [show (runIds [StoreOp.add "A" "hi" ⟨0, 0, 1⟩ "t1",
        StoreOp.reply 1 "B" "yo" "t2"]).2 = [1, 2] from rfl]; simp)

theorem memOfGetLast? {α : Type} (l : List α) (x : α) (h : x ∈ l.getLast?) : x ∈ l := by
  rcases List.mem_getLast?_eq_getLast h with ⟨hne, rfl⟩
  exact List.getLast_mem hne

theorem chain'_append_singleton_lt (l : List Nat) (n : Nat)
    (hc : l.Chain' (· < ·)) (hb : ∀ x ∈ l, x < n) : (l ++ [n]).Chain' (· < ·) := by
  refine List.chain'_append.mpr ⟨hc, List.chain'_singleton n, ?_⟩
  intro x hx y hy
  have hxl : x ∈ l := memOfGetLast? l x hx
  have hyn : n = y := by simpa using hy
  exact hyn ▸ hb x hxl

/-- All ids of the store sit below the counter, the comment list is
strictly sorted by id, and every reply list is strictly sorted by id; as
ids are handed out in increasing order, sorted by id is creation order. -/
def StoreSorted (s : Store.CommentStore) : Prop :=
  (∀ c ∈ s.comments, c.id < s.nextId ∧ ∀ r ∈ c.replies, r.id < s.nextId) ∧
  ((s.comments.map Store.SComment.id).Chain' (· < ·)) ∧
  (∀ c ∈ s.comments, (c.replies.map Store.Reply.id).Chain' (· < ·))

theorem StoreSorted_step (acc : Store.CommentStore × List Nat) (op : StoreOp)
    (h : StoreSorted acc.1) : StoreSorted (stepIds acc op).1 := by
  obtain ⟨hb, hcc, hrc⟩ := h
  cases op with
  | add a t pos now =>
      by_cases he : t.isEmpty = true
      · have hstep : stepIds acc (StoreOp.add a t pos now) = acc := by
          rw [stepIds]
          simp only [Store.addComment]
          rw [if_pos he]
        rw [hstep]
        exact ⟨hb, hcc, hrc⟩
      · have hstep : (stepIds acc (StoreOp.add a t pos now)).1 =
            ⟨acc.1.nextId + 1, acc.1.comments ++
              [⟨acc.1.nextId, a, t, pos, now, false, []⟩]⟩ := by
          rw [stepIds]
          simp only [Store.addComment]
          rw [if_neg he]
        rw [hstep]
        refine ⟨?_, ?_, ?_⟩
        · intro c hc
          rcases List.mem_append.mp hc with hcl | hcr
          · obtain ⟨hid, hrep⟩ := hb c hcl
            exact ⟨Nat.lt_succ_of_lt hid, fun r hr => Nat.lt_succ_of_lt (hrep r hr)⟩
          · have hc2 : c = ⟨acc.1.nextId, a, t, pos, now, false, []⟩ := by simpa using hcr
            subst hc2
            refine ⟨Nat.lt_succ_self _, ?_⟩
            intro r hr
            exact absurd hr (List.not_mem_nil r)
        · show ((acc.1.comments ++
              [(⟨acc.1.nextId, a, t, pos, now, false, []⟩ : Store.SComment)]).map
            Store.SComment.id).Chain' (· < ·)
          simp only [List.map_append, List.map_cons, List.map_nil]
          refine chain'_append_singleton_lt _ _ hcc ?_
          intro x hx
          rcases List.mem_map.mp hx with ⟨c, hcm, hcx⟩
          exact hcx ▸ (hb c hcm).1
        · intro c hc
          rcases List.mem_append.mp hc with hcl | hcr
          · exact hrc c hcl
          · have hc2 : c = ⟨acc.1.nextId, a, t, pos, now, false, []⟩ := by simpa using hcr
            subst hc2
            exact List.chain'_nil
  | reply cid a t now =>
      by_cases hf : acc.1.comments.any (fun c => c.id == cid) = true
      · have hstep : (stepIds acc (StoreOp.reply cid a t now)).1 =
            ⟨acc.1.nextId + 1, updateFirst (fun c => c.id == cid)
              (fun c => { c with replies :=
                c.replies ++ [⟨acc.1.nextId, a, t, now⟩] }) acc.1.comments⟩ := by
          rw [stepIds]
          simp only [Store.addReply]
          rw [if_pos hf]
        rw [hstep]
        refine ⟨?_, ?_, ?_⟩
        · intro c hc
          rcases updateFirst_mem _ _ _ c hc with hcl | ⟨x, hx, hcx⟩
          · obtain ⟨hid, hrep⟩ := hb c hcl
            exact ⟨Nat.lt_succ_of_lt hid, fun r hr => Nat.lt_succ_of_lt (hrep r hr)⟩
          · subst hcx
            obtain ⟨hid, hrep⟩ := hb x hx
            refine ⟨Nat.lt_succ_of_lt hid, ?_⟩
            intro r hr
            have hr2 : r ∈ x.replies ++ [⟨acc.1.nextId, a, t, now⟩] := hr
            rcases List.mem_append.mp hr2 with h1 | h2
            · exact Nat.lt_succ_of_lt (hrep r h1)
            · have hrn : r = ⟨acc.1.nextId, a, t, now⟩ := by simpa using h2
              subst hrn
              exact Nat.lt_succ_self _
        · show ((updateFirst (fun c => c.id == cid)
              (fun c => { c with replies :=
                c.replies ++ [(⟨acc.1.nextId, a, t, now⟩ : Store.Reply)] })
              acc.1.comments).map Store.SComment.id).Chain' (· < ·)
          rw [updateFirst_map_eq (fun c => c.id == cid)
            (fun c => { c with replies :=
              c.replies ++ [(⟨acc.1.nextId, a, t, now⟩ : Store.Reply)] })
            Store.SComment.id acc.1.comments (fun x => rfl)]
          exact hcc
        · intro c hc
          rcases updateFirst_mem _ _ _ c hc with hcl | ⟨x, hx, hcx⟩
          · exact hrc c hcl
          · subst hcx
            show (((x.replies ++ [(⟨acc.1.nextId, a, t, now⟩ : Store.Reply)]).map
              Store.Reply.id).Chain' (· < ·))
            simp only [List.map_append, List.map_cons, List.map_nil]
            refine chain'_append_singleton_lt _ _ (hrc x hx) ?_
            intro i hi
            rcases List.mem_map.mp hi with ⟨r, hrm, hri⟩
            exact hri ▸ ((hb x hx).2 r hrm)
      · have hstep : stepIds acc (StoreOp.reply cid a t now) = acc := by
          rw [stepIds]
          simp only [Store.addReply]
          rw [if_neg hf]
        rw [hstep]
        exact ⟨hb, hcc, hrc⟩
  | res cid =>
      by_cases hf : acc.1.comments.any (fun c => c.id == cid) = true
      · have hstep : (stepIds acc (StoreOp.res cid)).1 =
            ⟨acc.1.nextId, updateFirst (fun c => c.id == cid)
              (fun c => { c with resolved := true }) acc.1.comments⟩ := by
          rw [stepIds]
          simp only [Store.resolve]
          rw [if_pos hf]
        rw [hstep]
        refine ⟨?_, ?_, ?_⟩
        · intro c hc
          rcases updateFirst_mem _ _ _ c hc with hcl | ⟨x, hx, hcx⟩
          · exact hb c hcl
          · subst hcx
            exact hb x hx
        · show ((updateFirst (fun c => c.id == cid)
              (fun c => { c with resolved := true }) acc.1.comments).map
            Store.SComment.id).Chain' (· < ·)
          rw [updateFirst_map_eq (fun c => c.id == cid)
            (fun c => { c with resolved := true })
            Store.SComment.id acc.1.comments (fun x => rfl)]
          exact hcc
        · intro c hc
          rcases updateFirst_mem _ _ _ c hc with hcl | ⟨x, hx, hcx⟩
          · exact hrc c hcl
          · subst hcx
            exact hrc x hx
      · have hstep : stepIds acc (StoreOp.res cid) = acc := by
          rw [stepIds]
          simp only [Store.resolve]
          rw [if_neg hf]
        rw [hstep]
        exact ⟨hb, hcc, hrc⟩

theorem StoreSorted_foldl (ops : List StoreOp) :
    ∀ acc : Store.CommentStore × List Nat, StoreSorted acc.1 →
      StoreSorted ((ops.foldl stepIds acc).1) := by
  induction ops with
  | nil => intro acc h; exact h
  | cons op t ih => intro acc h; exact ih (stepIds acc op) (StoreSorted_step acc op h)

/-- Claim C8: the redux addComment reducer appends the new comment at the
end of the per-document list without touching other documents or
reordering existing comments, the redux addReply reducer appends the
reply at the end of the reply list of its parent comment leaving the
surrounding comments in place, and the store listing produced by any
operation sequence presents the comments in creation order (strictly
increasing ids) with each reply list in creation order. -/
theorem comments_in_creation_order :
    (∀ (s : CollaborationState) (d : String) (c : Comment),
      recGet? (Slice.addComment s d c).comments d =
        some ((recGet? s.comments d).getD [] ++ [c]) ∧
      (∀ d2 : String, d2 ≠ d →
        recGet? (Slice.addComment s d c).comments d2 = recGet? s.comments d2)) ∧
    (∀ (s : CollaborationState) (d : String) (cid : Nat) (r : Comment)
        (l1 : List Comment) (c : Comment) (l2 : List Comment),
      recGet? s.comments d = some (l1 ++ c :: l2) →
      (∀ y ∈ l1, y.id ≠ cid) → c.id = cid →
      recGet? (Slice.addReply s d cid r).comments d =
        some (l1 ++ c.pushReply r :: l2)) ∧
    (∀ ops : List StoreOp,
      Store.list (runIds ops).1 = (runIds ops).1.comments ∧
      ((Store.list (runIds ops).1).map Store.SComment.id).Chain' (· < ·) ∧
      (∀ c ∈ Store.list (runIds ops).1,
        (c.replies.map Store.Reply.id).Chain' (· < ·))) := by
  refine ⟨?_, ?_, ?_⟩
  · intro s d c
    constructor
    · exact recGet?_recSet_self s.comments d _
    · intro d2 hne
      exact recGet?_recSet_ne s.comments d d2 _ hne
  · intro s d cid r l1 c l2 hd hl1 hc
    have hany : (l1 ++ c :: l2).any (fun x => x.id == cid) = true :=
      List.any_eq_true.mpr
        ⟨c, List.mem_append_right l1 (List.mem_cons_self c l2), by simpa using hc⟩
    have hred : Slice.addReply s d cid r =
        (if (l1 ++ c :: l2).any (fun x => x.id == cid) then
          { s with comments :=
            (recSet s.comments d (updateFirst (fun x => x.id == cid)
              (fun x => x.pushReply r) (l1 ++ c :: l2))) }
        else s) := by
      rw [Slice.addReply, hd]
    rw [hred, if_pos hany]
    show recGet? (recSet s.comments d (updateFirst (fun x => x.id == cid)
      (fun x => x.pushReply r) (l1 ++ c :: l2))) d = _
    rw [updateFirst_append_cons (fun x => x.id == cid) (fun x => x.pushReply r) l1 c l2
      (fun y hy => by simpa using hl1 y hy) (by simpa using hc)]
    exact recGet?_recSet_self s.comments d _
  · intro ops
    have hs : StoreSorted (runIds ops).1 :=
      StoreSorted_foldl ops (Store.empty, [])
        ⟨fun c hc => absurd hc (List.not_mem_nil c), List.chain'_nil,
          fun c hc => absurd hc (List.not_mem_nil c)⟩
    exact ⟨rfl, hs.2.1, hs.2.2⟩

/-- Witness for C8: adding a comment to the empty client state stores it
under its document, a reply lands at the end of the reply list of comment
1, and the listing of a concrete run is sorted by id. -/
theorem comments_in_creation_order_witness :
    recGet? (Slice.addComment initialState "d"
        (Comment.mk 1 "A" "hi" ⟨0, 0, 1⟩ "t1" [])).comments "d" =
      some [Comment.mk 1 "A" "hi" ⟨0, 0, 1⟩ "t1" []] ∧
    recGet? (Slice.addReply (Slice.addComment initialState "d"
        (Comment.mk 1 "A" "hi" ⟨0, 0, 1⟩ "t1" [])) "d" 1
        (Comment.mk 2 "B" "yo" ⟨0, 0, 1⟩ "t2" [])).comments "d" =
      some [(Comment.mk 1 "A" "hi" ⟨0, 0, 1⟩ "t1" []).pushReply
        (Comment.mk 2 "B" "yo" ⟨0, 0, 1⟩ "t2" [])] ∧
    ((Store.list (runIds [StoreOp.add "A" "hi" ⟨0, 0, 1⟩ "t1"]).1).map
      Store.SComment.id).Chain' (· < ·) := by
  refine ⟨?_, ?_, ?_⟩
  · exact (comments_in_creation_order.1 initialState "d"
      (Comment.mk 1 "A" "hi" ⟨0, 0, 1⟩ "t1" [])).1
  · exact comments_in_creation_order.2.1
      (Slice.addComment initialState "d" (Comment.mk 1 "A" "hi" ⟨0, 0, 1⟩ "t1" []))
      "d" 1 (Comment.mk 2 "B" "yo" ⟨0, 0, 1⟩ "t2" [])
      [] (Comment.mk 1 "A" "hi" ⟨0, 0, 1⟩ "t1" []) [] rfl
      (fun y hy => absurd hy (List.not_mem_nil y)) rfl
  · exact (comments_in_creation_order.2.2 [StoreOp.add "A" "hi" ⟨0, 0, 1⟩ "t1"]).2.1


namespace Client

/-- Connection state of the CollaborationService socket client: the
socket handle, the bound document id and the current user are all null
until connect succeeds and are nulled again on disconnect. -/
structure ClientState where
  socket : Option Nat
  documentId : Option String
  userId : Option String
  deriving DecidableEq, Repr

/-- JS truthiness of a string-or-null value as tested by the guard
clauses of the service: null and the empty string are falsy. -/
def truthyStr : Option String → Option String
  | none => none
  | some s => if s.isEmpty then none else some s

/-- An event emitted on the socket by one of the send operations. -/
inductive ClientEmit (α : Type) : Type where
  | commentAdd (documentId : String) (comment : α)
  | cursorMove (documentId : String) (x y : Int)
  | usersGet (documentId : String)

/-- CollaborationService.addComment: returns silently without emitting
when the socket or the document id is not set, otherwise emits one
comment:add event carrying the document id and the comment. -/
def addComment {α : Type} (st : ClientState) (c : α) : List (ClientEmit α) :=
  match st.socket, truthyStr st.documentId with
  | some _, some d => [ClientEmit.commentAdd d c]
  | _, _ => []

/-- CollaborationService.updateCursorPosition: returns silently without
emitting when the socket or the document id is not set, otherwise emits
one cursor:move event. -/
def updateCursorPosition {α : Type} (st : ClientState) (x y : Int) :
    List (ClientEmit α) :=
  match st.socket, truthyStr st.documentId with
  | some _, some d => [ClientEmit.cursorMove d x y]
  | _, _ => []

/-- CollaborationService.getActiveUsers: resolves immediately to the
empty list without emitting when the socket or the document id is not
set, otherwise emits users:get and resolves to the server reply. -/
def getActiveUsers {α β : Type} (st : ClientState) (server : String → List β) :
    List (ClientEmit α) × List β :=
  match st.socket, truthyStr st.documentId with
  | some _, some d => ([ClientEmit.usersGet d], server d)
  | _, _ => ([], [])

end Client

/-- Claim C10: every send operation of the collaboration client is a
silent no-op when no connection is established: with a null socket or a
null document id, addComment and updateCursorPosition emit nothing and
return normally, and getActiveUsers resolves to the empty list. -/
theorem sends_are_noops_when_disconnected {α β : Type} (st : Client.ClientState)
    (h : st.socket = none ∨ st.documentId = none) (c : α) (x y : Int)
    (server : String → List β) :
    Client.addComment st c = [] ∧
    Client.updateCursorPosition st x y = ([] : List (Client.ClientEmit α)) ∧
    Client.getActiveUsers st server = (([] : List (Client.ClientEmit α)), ([] : List β)) := by
  cases st with
  | mk so d u =>
      rcases h with h | h
      · have h2 : so = none := h
        subst h2
        exact ⟨rfl, rfl, rfl⟩
      · have h2 : d = none := h
        subst h2
        cases so with
        | none => exact ⟨rfl, rfl, rfl⟩
        | some n => exact ⟨rfl, rfl, rfl⟩

/-- Witness for C10: with a connected socket but a null document id,
addComment of a concrete comment emits nothing, a cursor update emits
nothing and getActiveUsers resolves to the empty list. -/
theorem sends_are_noops_when_disconnected_witness :
    (⟨some 0, none, some "A"⟩ : Client.ClientState).documentId = none ∧
    Client.addComment (⟨some 0, none, some "A"⟩ : Client.ClientState) (5 : Nat) = [] ∧
    Client.getActiveUsers (⟨some 0, none, some "A"⟩ : Client.ClientState)
      (fun _ => [("B" : String)]) =
      (([] : List (Client.ClientEmit Nat)), ([] : List String)) := by
  have hmain := sends_are_noops_when_disconnected
    (⟨some 0, none, some "A"⟩ : Client.ClientState) (Or.inr rfl) (5 : Nat) 1 2
    (fun _ => [("B" : String)])
  exact ⟨rfl, hmain.1, hmain.2.2⟩

/-- Claim C9: for every collaboration state s, the clearCollaborationState
reducer yields exactly the initial state (no active document, no cursors,
no comments, lock unheld with no holder and no timestamp, no participants,
disconnected, no error); it is a constant function and hence idempotent. -/
theorem clearCollaborationState_eq_initialState :
    (∀ s : CollaborationState, Slice.clearCollaborationState s = initialState) ∧
    (∀ s t : CollaborationState,
      Slice.clearCollaborationState s = Slice.clearCollaborationState t) ∧
    (∀ s : CollaborationState,
      Slice.clearCollaborationState (Slice.clearCollaborationState s) =
        Slice.clearCollaborationState s) :=
  ⟨fun _ => rfl, fun _ _ => rfl, fun _ => rfl⟩

end PdfChatReg
